import Mathlib

/-!
Verification of the camera-position extractor and CLI parameter derivation of
run_multiview.py.

The only algorithmic component of the file is
extract_structured_camera_positions (lines 24-53): it matches each base
filename against the regular expression
  .*_(-?\d+\.?\d*)_(-?\d+\.?\d*)_(-?\d+\.?\d*)\.(png|jpg|jpeg)$
(compiled with no flags, so matching is case-sensitive and the dot-star cannot
cross a newline, while the end anchor also accepts one trailing newline),
converts the three captured groups with float(), and applies a three-way
decision policy (full coverage / partial coverage / no coverage).

Modelling choices, stated once here:
* strings are lists of characters; digits are the ASCII digits that the
  filenames at issue contain;
* Python floats are modelled as exact rationals: every numeric literal the
  pattern can capture denotes an exact decimal rational, and float() maps it
  to the nearest double, so equality of the rational values is the exact
  form of the round-trip property;
* the print side effects are modelled as a list of Msg values, one
  constructor per print statement of the function;
* a float() exception is modelled as Except.error; the extractor is proved
  to never produce it.
-/

set_option maxHeartbeats 1000000

namespace RunMultiview

/-- Status messages printed by extract_structured_camera_positions:
line 47 prints the extracted count, lines 50 and 51 print the
partial-coverage warning and the defaults notice. -/
inductive Msg where
  | extracted (count : Nat)
  | coverageWarning (matched : Nat) (total : Nat)
  | usingDefaults
  deriving DecidableEq

/-- The fatal ValueError raised by the main script at lines 182-183 when the
directory scan found fewer than two images. -/
inductive ScanError where
  | tooFewImages (found : Nat)
  deriving DecidableEq

/-- A camera position: an (x, y, z) triple of coordinates. -/
abbrev Pos3 := ℚ × ℚ × ℚ

/-- Python os.path.basename (posix): the part of the path after the last
slash, used at line 37. -/
def basename (p : List Char) : List Char :=
  (p.reverse.takeWhile (fun c => c != '/')).reverse

/-- Value of a list of decimal digit characters, read left to right. -/
def digitsVal (l : List Char) : Nat :=
  l.foldl (fun a c => 10 * a + (c.toNat - '0'.toNat)) 0

/-- Python float() on an unsigned simple decimal literal: digits, an optional
dot, and more digits, with at least one digit present. This is the whole
domain that the numeric capture groups of the pattern can produce. -/
def pyFloatCore (s : List Char) : Option ℚ :=
  let ds := s.takeWhile Char.isDigit
  let rest := s.dropWhile Char.isDigit
  match rest with
  | [] => if ds.isEmpty then none else some ((digitsVal ds : ℚ))
  | c :: fs =>
    if c = '.' then
      if fs.all Char.isDigit && !(ds.isEmpty && fs.isEmpty) then
        some ((digitsVal ds : ℚ) + (digitsVal fs : ℚ) / (10 : ℚ) ^ fs.length)
      else none
    else none

/-- Python float() on a signed simple decimal literal (line 41 applies it to
each captured group). -/
def pyFloat (s : List Char) : Option ℚ :=
  match s with
  | [] => none
  | c :: rest =>
    if c = '-' then (pyFloatCore rest).map (fun q => -q)
    else if c = '+' then pyFloatCore rest
    else pyFloatCore (c :: rest)

/-- Whether s, in full, matches the regex fragment \d+\.?\d* . -/
def numBody (s : List Char) : Bool :=
  let ds := s.takeWhile Char.isDigit
  let rest := s.dropWhile Char.isDigit
  match rest with
  | [] => !ds.isEmpty
  | c :: fs => (c == '.') && !ds.isEmpty && fs.all Char.isDigit

/-- Whether s, in full, matches a numeric capture group -?\d+\.?\d* of the
position pattern. -/
def numGroup (s : List Char) : Bool :=
  match s with
  | [] => false
  | c :: rest => if c = '-' then numBody rest else numBody (c :: rest)

/-- Split a list at its first underscore: some (before, after) when an
underscore exists, none otherwise. Inside the pattern tail, a capture group
cannot contain an underscore and must be followed by a literal underscore, so
it extends exactly to the next underscore. -/
def splitUnderscore (l : List Char) : Option (List Char × List Char) :=
  match l with
  | [] => none
  | c :: rest =>
    if c = '_' then some ([], rest)
    else
      match splitUnderscore rest with
      | some (a, b) => some (c :: a, b)
      | none => none

/-- Drop one permitted trailing newline before the end anchor: in Python a
dollar anchor matches at the end of the string or just before a final
newline. The argument here is the reversed tail, so that newline is a leading
character. -/
def stripNl (s : List Char) : List Char :=
  match s with
  | [] => []
  | c :: rest => if c = '\n' then rest else c :: rest

/-- Match the regex fragment \.(png|jpg|jpeg)$ against the end of the third
segment and return the part before it, the candidate for capture group 3.
At most one of the three extensions can be a suffix, so the alternation
order of the pattern does not matter. -/
def extSplit (rest3 : List Char) : Option (List Char) :=
  let r := stripNl rest3.reverse
  if r.take 4 = ".png".toList.reverse then some ((r.drop 4).reverse)
  else if r.take 4 = ".jpg".toList.reverse then some ((r.drop 4).reverse)
  else if r.take 5 = ".jpeg".toList.reverse then some ((r.drop 5).reverse)
  else none

/-- Match _(num)_(num)_(num)\.(ext)$ against the whole of s, the part of the
filename left after the dot-star prefix. At a fixed start position the match
is deterministic: each group runs to the next underscore, and the extension
is determined as a suffix. -/
def tailMatch (s : List Char) : Option (List Char × List Char × List Char) :=
  match s with
  | [] => none
  | c0 :: rest =>
    if c0 = '_' then
      match splitUnderscore rest with
      | none => none
      | some (g1, rest2) =>
        match splitUnderscore rest2 with
        | none => none
        | some (g2, rest3) =>
          match extSplit rest3 with
          | none => none
          | some g3 =>
            if numGroup g1 && numGroup g2 && numGroup g3 then some (g1, g2, g3)
            else none
    else none

/-- re.match of the full position pattern (line 38): a greedy dot-star prefix,
which cannot contain a newline, followed by the fixed tail. The greedy engine
commits to the longest prefix whose tail succeeds, so the deepest successful
tail position wins. -/
def reMatchGreedy : List Char → Option (List Char × List Char × List Char)
  | [] => none
  | c :: rest =>
    if c = '\n' then tailMatch (c :: rest)
    else
      match reMatchGreedy rest with
      | some g => some g
      | none => tailMatch (c :: rest)

/-- Conversion of the three captured groups by float() at line 41. -/
def convTriple (g : List Char × List Char × List Char) : Option Pos3 :=
  match pyFloat g.1, pyFloat g.2.1, pyFloat g.2.2 with
  | some x, some y, some z => some (x, y, z)
  | _, _, _ => none

/-- The loop of lines 36-43: i is the enumerate counter, positions and
valid_indices are the two accumulators; a float() exception would abort the
whole call, which Except.error represents. -/
def extractLoop (i : Nat) (positions : List Pos3) (valid_indices : List Nat) :
    List (List Char) → Except Unit (List Pos3 × List Nat)
  | [] => Except.ok (positions, valid_indices)
  | image_path :: rest =>
    match reMatchGreedy (basename image_path) with
    | some g =>
      match convTriple g with
      | some t => extractLoop (i + 1) (positions ++ [t]) (valid_indices ++ [i]) rest
      | none => Except.error ()
    | none => extractLoop (i + 1) positions valid_indices rest

/-- extract_structured_camera_positions, lines 24-53. The unused args
parameter of the Python signature is omitted: the body never reads it. The
first component of the result is the return value (some list or None), the
second the printed messages in order. -/
def extract_structured_camera_positions (images : List (List Char)) :
    Except Unit (Option (List Pos3) × List Msg) :=
  match extractLoop 0 [] [] images with
  | Except.error e => Except.error e
  | Except.ok (positions, _valid_indices) =>
    if positions.length = images.length then
      Except.ok (some positions, [Msg.extracted positions.length])
    else if positions.length > 0 then
      Except.ok (none, [Msg.coverageWarning positions.length images.length,
                        Msg.usingDefaults])
    else
      Except.ok (none, [])

/-- What the loop body computes for a single path: the regex match on the
base filename followed by the float() conversions. -/
def parseTriple (p : List Char) : Option Pos3 :=
  (reMatchGreedy (basename p)).bind convTriple

/-- Number of input paths whose base filename matches the position pattern. -/
def matchedCount (images : List (List Char)) : Nat :=
  images.countP (fun p => (reMatchGreedy (basename p)).isSome)

/-- Lines 182-183 of the main script: fewer than two scanned images is a
fatal ValueError. -/
def validateImageCount (image_paths : List (List Char)) : Except ScanError Unit :=
  if image_paths.length < 2 then
    Except.error (ScanError.tooFewImages image_paths.length)
  else Except.ok ()

/-- check_positive, lines 17-21: the argparse type checker for target_count;
the int() conversion has already happened, the ArgumentTypeError is the
error case. -/
def check_positive (value : Int) : Except Unit Int :=
  if value ≤ 0 then Except.error () else Except.ok value

/-- The vertex_count derivation of lines 208-216; Python floor division is
Int.fdiv. -/
def vertex_count (reduction_count_type : String) (target_count : Int) : Int :=
  if reduction_count_type = "keep" then -1
  else if reduction_count_type = "vertex" then target_count
  else Int.fdiv target_count 2

/-- Decidable equality of results, so that concrete runs of the extractor can
be checked by the decide tactic. -/
instance {ε α : Type} [DecidableEq ε] [DecidableEq α] : DecidableEq (Except ε α) :=
  fun x y =>
    match x, y with
    | Except.error a, Except.error b =>
      if h : a = b then isTrue (congrArg Except.error h)
      else isFalse (fun hc => h (Except.error.inj hc))
    | Except.error _, Except.ok _ => isFalse (fun hc => Except.noConfusion hc)
    | Except.ok _, Except.error _ => isFalse (fun hc => Except.noConfusion hc)
    | Except.ok a, Except.ok b =>
      if h : a = b then isTrue (congrArg Except.ok h)
      else isFalse (fun hc => h (Except.ok.inj hc))

/-! ### Basic lemmas about the tail matcher -/

/-- A successful underscore split decomposes the list and its left part is
underscore-free. -/
theorem splitUnderscore_eq :
    ∀ {l a b : List Char}, splitUnderscore l = some (a, b) →
      l = a ++ '_' :: b ∧ ∀ c ∈ a, c ≠ '_' := by
  intro l
  induction l with
  | nil => intro a b h; simp [splitUnderscore] at h
  | cons c rest ih =>
    intro a b h
    by_cases hc : c = '_'
    · subst hc
      simp [splitUnderscore] at h
      obtain ⟨ha, hb⟩ := h
      subst ha; subst hb
      exact ⟨rfl, by simp⟩
    · rw [splitUnderscore, if_neg hc] at h
      cases hr : splitUnderscore rest with
      | none => rw [hr] at h; simp at h
      | some pr =>
        obtain ⟨a0, b0⟩ := pr
        rw [hr] at h
        simp at h
        obtain ⟨ha, hb⟩ := h
        subst hb
        obtain ⟨hl, hfree⟩ := ih hr
        subst ha
        refine ⟨by simp [hl], ?_⟩
        intro d hd
        rcases List.mem_cons.mp hd with h1 | h2
        · exact h1 ▸ hc
        · exact hfree d h2

/-- Splitting an explicit decomposition with an underscore-free left part
recovers exactly that decomposition. -/
theorem splitUnderscore_append :
    ∀ (a b : List Char), (∀ c ∈ a, c ≠ '_') →
      splitUnderscore (a ++ '_' :: b) = some (a, b) := by
  intro a
  induction a with
  | nil => intro b _; simp [splitUnderscore]
  | cons c a0 ih =>
    intro b h
    have hc : c ≠ '_' := h c (List.mem_cons_self c a0)
    rw [List.cons_append, splitUnderscore, if_neg hc,
      ih b (fun d hd => h d (List.mem_cons_of_mem c hd))]

/-- A list without underscores does not split. -/
theorem splitUnderscore_none :
    ∀ (l : List Char), (∀ c ∈ l, c ≠ '_') → splitUnderscore l = none := by
  intro l
  induction l with
  | nil => intro _; rfl
  | cons c rest ih =>
    intro h
    rw [splitUnderscore, if_neg (h c (List.mem_cons_self c rest)),
      ih (fun d hd => h d (List.mem_cons_of_mem c hd))]

/-- The tail pattern begins with a literal underscore. -/
theorem tailMatch_none_of_ne {c : Char} (l : List Char) (h : c ≠ '_') :
    tailMatch (c :: l) = none := by
  simp [tailMatch, h]

/-- Groups returned by the tail matcher pass the numeric-group test. -/
theorem tailMatch_groups :
    ∀ {s g1 g2 g3 : List Char}, tailMatch s = some (g1, g2, g3) →
      numGroup g1 = true ∧ numGroup g2 = true ∧ numGroup g3 = true := by
  intro s g1 g2 g3 h
  cases s with
  | nil => simp [tailMatch] at h
  | cons c0 rest =>
    simp only [tailMatch] at h
    by_cases hc : c0 = '_'
    · rw [if_pos hc] at h
      cases h1 : splitUnderscore rest with
      | none => simp only [h1] at h; exact absurd h (by simp)
      | some pr1 =>
        obtain ⟨a1, b1⟩ := pr1
        simp only [h1] at h
        cases h2 : splitUnderscore b1 with
        | none => simp only [h2] at h; exact absurd h (by simp)
        | some pr2 =>
          obtain ⟨a2, b2⟩ := pr2
          simp only [h2] at h
          cases h3 : extSplit b2 with
          | none => simp only [h3] at h; exact absurd h (by simp)
          | some a3 =>
            simp only [h3] at h
            by_cases hcond : (numGroup a1 && numGroup a2 && numGroup a3) = true
            · rw [if_pos hcond] at h
              simp only [Option.some.injEq, Prod.mk.injEq] at h
              obtain ⟨e1, e2, e3⟩ := h
              subst e1; subst e2; subst e3
              obtain ⟨⟨p1, p2⟩, p3⟩ := by simpa [Bool.and_eq_true] using hcond
              exact ⟨p1, p2, p3⟩
            · rw [if_neg hcond] at h; simp at h
    · rw [if_neg hc] at h; simp at h

/-! ### Lemmas about the greedy matcher -/

/-- Unfolding of the greedy matcher away from a newline. -/
theorem reMatch_cons {c : Char} (rest : List Char) (h : c ≠ '\n') :
    reMatchGreedy (c :: rest) =
      match reMatchGreedy rest with
      | some g => some g
      | none => tailMatch (c :: rest) := by
  simp only [reMatchGreedy, if_neg h]

/-- A character that can start neither the tail nor end the prefix is
transparent to the matcher. -/
theorem reMatch_skip {c : Char} (rest : List Char) (h1 : c ≠ '\n') (h2 : c ≠ '_') :
    reMatchGreedy (c :: rest) = reMatchGreedy rest := by
  rw [reMatch_cons rest h1]
  cases hr : reMatchGreedy rest with
  | some g => rfl
  | none => simp [tailMatch_none_of_ne rest h2]

/-- A whole block of such characters is transparent to the matcher. -/
theorem reMatch_skipAll (v : List Char) (w : List Char)
    (h : ∀ c ∈ v, c ≠ '\n' ∧ c ≠ '_') :
    reMatchGreedy (v ++ w) = reMatchGreedy w := by
  induction v with
  | nil => rfl
  | cons c v0 ih =>
    have hc := h c (List.mem_cons_self c v0)
    rw [List.cons_append, reMatch_skip (v0 ++ w) hc.1 hc.2,
      ih (fun d hd => h d (List.mem_cons_of_mem c hd))]

/-- A string with no underscore and no newline does not match at all. -/
theorem reMatch_none (s : List Char) (h : ∀ c ∈ s, c ≠ '\n' ∧ c ≠ '_') :
    reMatchGreedy s = none := by
  induction s with
  | nil => rfl
  | cons c rest ih =>
    have hc := h c (List.mem_cons_self c rest)
    rw [reMatch_skip rest hc.1 hc.2, ih (fun d hd => h d (List.mem_cons_of_mem c hd))]

/-- A successful match is preserved under any newline-free prefix: the
greedy engine prefers the longer prefix, so a success further right wins. -/
theorem reMatch_extend (v w : List Char) {g : List Char × List Char × List Char}
    (hv : ∀ c ∈ v, c ≠ '\n') (hw : reMatchGreedy w = some g) :
    reMatchGreedy (v ++ w) = some g := by
  induction v with
  | nil => exact hw
  | cons c v0 ih =>
    have hc : c ≠ '\n' := hv c (List.mem_cons_self c v0)
    have ih2 := ih (fun d hd => hv d (List.mem_cons_of_mem c hd))
    rw [List.cons_append, reMatch_cons (v0 ++ w) hc]
    simp only [ih2]

/-- If some tail position succeeds after a newline-free prefix, the whole
match succeeds. -/
theorem reMatch_reach (p t : List Char) (hp : ∀ c ∈ p, c ≠ '\n')
    (ht : (tailMatch t).isSome = true) : (reMatchGreedy (p ++ t)).isSome = true := by
  induction p with
  | nil =>
    cases t with
    | nil => simp [tailMatch] at ht
    | cons c rest =>
      by_cases hc : c = '\n'
      · rw [tailMatch_none_of_ne rest (by rw [hc]; decide)] at ht
        simp at ht
      · rw [List.nil_append, reMatch_cons rest hc]
        cases hr : reMatchGreedy rest with
        | some g => rfl
        | none => exact ht
  | cons c p0 ih =>
    have hc : c ≠ '\n' := hp c (List.mem_cons_self c p0)
    have ih2 := ih (fun d hd => hp d (List.mem_cons_of_mem c hd))
    rw [List.cons_append, reMatch_cons (p0 ++ t) hc]
    cases hr : reMatchGreedy (p0 ++ t) with
    | some g => rfl
    | none => rw [hr] at ih2; simp at ih2

/-- Any successful greedy match arises from a successful tail position. -/
theorem reMatch_some_tail :
    ∀ (s : List Char) {g}, reMatchGreedy s = some g →
      ∃ p t, s = p ++ t ∧ tailMatch t = some g := by
  intro s
  induction s with
  | nil => intro g h; simp [reMatchGreedy] at h
  | cons c rest ih =>
    intro g h
    by_cases hc : c = '\n'
    · rw [reMatchGreedy, if_pos hc] at h
      exact ⟨[], c :: rest, rfl, h⟩
    · rw [reMatch_cons rest hc] at h
      cases hr : reMatchGreedy rest with
      | some g0 =>
        rw [hr] at h
        obtain ⟨p, t, hs, htm⟩ := ih hr
        exact ⟨c :: p, t, by simp [hs], by simp only [← h]; exact htm⟩
      | none =>
        rw [hr] at h
        exact ⟨[], c :: rest, rfl, h⟩

/-- Groups returned by the full matcher pass the numeric-group test. -/
theorem reMatch_groups {s g1 g2 g3 : List Char}
    (h : reMatchGreedy s = some (g1, g2, g3)) :
    numGroup g1 = true ∧ numGroup g2 = true ∧ numGroup g3 = true := by
  obtain ⟨p, t, _, htm⟩ := reMatch_some_tail s h
  exact tailMatch_groups htm

/-! ### Numeric groups convert to rationals -/

/-- The body of a numeric group is accepted by float(). -/
theorem numBody_pyFloatCore (s : List Char) (h : numBody s = true) :
    (pyFloatCore s).isSome = true := by
  cases hr : s.dropWhile Char.isDigit with
  | nil =>
    simp only [numBody, hr, Bool.not_eq_true'] at h
    simp [pyFloatCore, hr, h]
  | cons c fs =>
    simp only [numBody, hr, Bool.and_eq_true, beq_iff_eq, Bool.not_eq_true'] at h
    obtain ⟨⟨hdot, hds⟩, hfs⟩ := h
    simp [pyFloatCore, hr, hdot, hds, hfs]

/-- Every string accepted as a numeric capture group converts with float()
without an exception; this is why line 41 is safe. -/
theorem numGroup_pyFloat (s : List Char) (h : numGroup s = true) :
    (pyFloat s).isSome = true := by
  cases s with
  | nil => simp [numGroup] at h
  | cons c rest =>
    simp only [numGroup] at h
    simp only [pyFloat]
    by_cases hc : c = '-'
    · rw [if_pos hc] at h
      rw [if_pos hc]
      have := numBody_pyFloatCore rest h
      cases hp : pyFloatCore rest with
      | none => rw [hp] at this; simp at this
      | some q => simp [hp]
    · rw [if_neg hc] at h
      rw [if_neg hc]
      have hplus : c ≠ '+' := by
        intro hcp
        rw [hcp] at h
        simp [numBody, List.dropWhile] at h
      rw [if_neg hplus]
      exact numBody_pyFloatCore (c :: rest) h

/-- A matched triple of groups converts to a position triple. -/
theorem convTriple_isSome {g1 g2 g3 : List Char}
    (h1 : numGroup g1 = true) (h2 : numGroup g2 = true) (h3 : numGroup g3 = true) :
    ∃ t, convTriple (g1, g2, g3) = some t := by
  have q1 := numGroup_pyFloat g1 h1
  have q2 := numGroup_pyFloat g2 h2
  have q3 := numGroup_pyFloat g3 h3
  rw [Option.isSome_iff_exists] at q1 q2 q3
  obtain ⟨x, hx⟩ := q1
  obtain ⟨y, hy⟩ := q2
  obtain ⟨z, hz⟩ := q3
  exact ⟨(x, y, z), by simp [convTriple, hx, hy, hz]⟩

/-- A path whose base filename matches the pattern yields a parsed triple. -/
theorem parseTriple_isSome (p : List Char)
    (h : (reMatchGreedy (basename p)).isSome = true) :
    (parseTriple p).isSome = true := by
  rw [Option.isSome_iff_exists] at h
  obtain ⟨g, hg⟩ := h
  obtain ⟨g1, g2, g3⟩ := g
  obtain ⟨hn1, hn2, hn3⟩ := reMatch_groups hg
  obtain ⟨t, ht⟩ := convTriple_isSome hn1 hn2 hn3
  simp [parseTriple, hg, ht]

/-- A path whose base filename does not match yields no triple. -/
theorem parseTriple_none (p : List Char)
    (h : reMatchGreedy (basename p) = none) : parseTriple p = none := by
  simp [parseTriple, h]

/-! ### The loop and the decision policy -/

/-- The loop never raises and accumulates exactly the parsed triples, in
input order. -/
theorem extractLoop_ok (images : List (List Char)) :
    ∀ (i : Nat) (pos : List Pos3) (caps : List Nat),
      ∃ caps2, extractLoop i pos caps images =
        Except.ok (pos ++ images.filterMap parseTriple, caps2) := by
  induction images with
  | nil => intro i pos caps; exact ⟨caps, by simp [extractLoop]⟩
  | cons p rest ih =>
    intro i pos caps
    cases hm : reMatchGreedy (basename p) with
    | none =>
      obtain ⟨caps2, h2⟩ := ih (i + 1) pos caps
      refine ⟨caps2, ?_⟩
      simp only [extractLoop, hm, h2, List.filterMap_cons, parseTriple_none p hm]
    | some g =>
      have hps : (parseTriple p).isSome = true := parseTriple_isSome p (by simp [hm])
      rw [Option.isSome_iff_exists] at hps
      obtain ⟨t, ht⟩ := hps
      have hcv : convTriple g = some t := by
        have := ht
        rw [parseTriple, hm] at this
        simpa using this
      obtain ⟨caps2, h2⟩ := ih (i + 1) (pos ++ [t]) (caps ++ [i])
      refine ⟨caps2, ?_⟩
      simp only [extractLoop, hm, hcv, h2, List.filterMap_cons, ht]
      simp

/-- The whole extractor, written as the three-way decision policy over the
list of parsed triples. -/
theorem extract_eq (images : List (List Char)) :
    extract_structured_camera_positions images =
      (if (images.filterMap parseTriple).length = images.length then
        Except.ok (some (images.filterMap parseTriple),
          [Msg.extracted (images.filterMap parseTriple).length])
      else if (images.filterMap parseTriple).length > 0 then
        Except.ok (none, [Msg.coverageWarning (images.filterMap parseTriple).length
          images.length, Msg.usingDefaults])
      else Except.ok (none, [])) := by
  obtain ⟨caps2, h2⟩ := extractLoop_ok images 0 [] []
  rw [extract_structured_camera_positions, h2]
  simp

/-- The extractor never raises: every call returns normally. -/
theorem extract_ok (images : List (List Char)) :
    ∃ out, extract_structured_camera_positions images = Except.ok out := by
  rw [extract_eq images]
  by_cases h1 : (images.filterMap parseTriple).length = images.length
  · rw [if_pos h1]; exact ⟨_, rfl⟩
  · rw [if_neg h1]
    by_cases h2 : (images.filterMap parseTriple).length > 0
    · rw [if_pos h2]; exact ⟨_, rfl⟩
    · rw [if_neg h2]; exact ⟨_, rfl⟩

/-- When every element maps to some value, filterMap is a full map: same
length, and the i-th output comes from the i-th input. -/
theorem filterMap_all_isSome {α β : Type} (f : α → Option β) :
    ∀ (l : List α), (∀ x ∈ l, (f x).isSome = true) →
      (l.filterMap f).length = l.length ∧
        ∀ (i : Nat) (hi : i < l.length) (hf : i < (l.filterMap f).length),
          f l[i] = some (l.filterMap f)[i] := by
  intro l
  induction l with
  | nil => intro _; exact ⟨rfl, fun i hi => by simp at hi⟩
  | cons a l0 ih =>
    intro h
    have ha : (f a).isSome = true := h a (List.mem_cons_self a l0)
    rw [Option.isSome_iff_exists] at ha
    obtain ⟨b, hb⟩ := ha
    have ih2 := ih (fun x hx => h x (List.mem_cons_of_mem a hx))
    constructor
    · simp [List.filterMap_cons, hb, ih2.1]
    · intro i hi hf
      cases i with
      | zero => simp [List.filterMap_cons, hb]
      | succ n =>
        have hn : n < l0.length := by simpa using hi
        have hn2 : n < (l0.filterMap f).length := by
          rw [ih2.1]; exact hn
        have := ih2.2 n hn hn2
        simpa [List.filterMap_cons, hb] using this

/-- The number of parsed triples is the number of matching paths. -/
theorem filterMap_length_eq_matchedCount (images : List (List Char)) :
    (images.filterMap parseTriple).length = matchedCount images := by
  induction images with
  | nil => rfl
  | cons p rest ih =>
    cases hm : reMatchGreedy (basename p) with
    | none =>
      simp [List.filterMap_cons, parseTriple_none p hm, matchedCount, hm,
        List.countP_cons] at ih ⊢
      exact ih
    | some g =>
      have hps := parseTriple_isSome p (by simp [hm])
      rw [Option.isSome_iff_exists] at hps
      obtain ⟨t, ht⟩ := hps
      simp [List.filterMap_cons, ht, matchedCount, hm, List.countP_cons] at ih ⊢
      exact ih

/-- A path without slashes is its own base filename. -/
theorem basename_eq_self (p : List Char) (h : ∀ c ∈ p, c ≠ '/') :
    basename p = p := by
  rw [basename, List.takeWhile_eq_self_iff.mpr, List.reverse_reverse]
  intro c hc
  have : c ≠ '/' := h c (List.mem_reverse.mp hc)
  simpa using this

/-! ### Characters of a numeric group -/

/-- Every character of an accepted numeric-group body is a digit or a dot. -/
theorem numBody_mem (s : List Char) (h : numBody s = true) :
    ∀ c ∈ s, c.isDigit = true ∨ c = '.' := by
  intro c hc
  have hsplit : s.takeWhile Char.isDigit ++ s.dropWhile Char.isDigit = s :=
    List.takeWhile_append_dropWhile Char.isDigit s
  rw [← hsplit] at hc
  rcases List.mem_append.mp hc with h1 | h2
  · exact Or.inl (List.mem_takeWhile_imp h1)
  · cases hr : s.dropWhile Char.isDigit with
    | nil => rw [hr] at h2; simp at h2
    | cons d fs =>
      simp only [numBody, hr, Bool.and_eq_true, beq_iff_eq] at h
      obtain ⟨⟨hdot, _⟩, hfs⟩ := h
      rw [hr] at h2
      rcases List.mem_cons.mp h2 with h3 | h4
      · exact Or.inr (h3.trans hdot)
      · exact Or.inl (by simpa using List.all_eq_true.mp hfs c h4)

/-- Every character of an accepted numeric group is a minus, a digit or a
dot; in particular it is not an underscore, newline or slash. -/
theorem numGroup_chars (s : List Char) (h : numGroup s = true) :
    ∀ c ∈ s, c ≠ '_' ∧ c ≠ '\n' ∧ c ≠ '/' := by
  have base : ∀ c ∈ s, c = '-' ∨ c.isDigit = true ∨ c = '.' := by
    intro c hc
    cases s with
    | nil => simp at hc
    | cons c0 rest =>
      simp only [numGroup] at h
      by_cases hc0 : c0 = '-'
      · rw [if_pos hc0] at h
        rcases List.mem_cons.mp hc with h1 | h2
        · exact Or.inl (h1.trans hc0)
        · exact Or.inr (numBody_mem rest h c h2)
      · rw [if_neg hc0] at h
        exact Or.inr (numBody_mem (c0 :: rest) h c hc)
  intro c hc
  rcases base c hc with h1 | h2 | h3
  · subst h1; refine ⟨by decide, by decide, by decide⟩
  · refine ⟨?_, ?_, ?_⟩ <;> intro he <;> rw [he] at h2 <;> simp at h2
  · subst h3; refine ⟨by decide, by decide, by decide⟩

/-! ### The extension splitter on well-formed tails -/

/-- The splitter recognises a lowercase png suffix. -/
theorem extSplit_png (z : List Char) : extSplit (z ++ ".png".toList) = some z := by
  have h0 : (z ++ ".png".toList).reverse =
      (['g', 'n', 'p', '.'] : List Char) ++ z.reverse := by
    rw [List.reverse_append]; rfl
  have h1 : stripNl ((['g', 'n', 'p', '.'] : List Char) ++ z.reverse) =
      (['g', 'n', 'p', '.'] : List Char) ++ z.reverse := by
    simp [stripNl]
  have ht4 : List.take 4 ((['g', 'n', 'p', '.'] : List Char) ++ z.reverse) =
      ['g', 'n', 'p', '.'] := List.take_left' (by decide)
  have hd4 : List.drop 4 ((['g', 'n', 'p', '.'] : List Char) ++ z.reverse) =
      z.reverse := List.drop_left' (by decide)
  have hc1 : (['g', 'n', 'p', '.'] : List Char) = ".png".toList.reverse := by decide
  simp only [extSplit, h0, h1, ht4, hd4]
  rw [if_pos hc1, List.reverse_reverse]

/-- The splitter recognises a lowercase jpg suffix. -/
theorem extSplit_jpg (z : List Char) : extSplit (z ++ ".jpg".toList) = some z := by
  have h0 : (z ++ ".jpg".toList).reverse =
      (['g', 'p', 'j', '.'] : List Char) ++ z.reverse := by
    rw [List.reverse_append]; rfl
  have h1 : stripNl ((['g', 'p', 'j', '.'] : List Char) ++ z.reverse) =
      (['g', 'p', 'j', '.'] : List Char) ++ z.reverse := by
    simp [stripNl]
  have ht4 : List.take 4 ((['g', 'p', 'j', '.'] : List Char) ++ z.reverse) =
      ['g', 'p', 'j', '.'] := List.take_left' (by decide)
  have hd4 : List.drop 4 ((['g', 'p', 'j', '.'] : List Char) ++ z.reverse) =
      z.reverse := List.drop_left' (by decide)
  have hc1 : ¬((['g', 'p', 'j', '.'] : List Char) = ".png".toList.reverse) := by decide
  have hc2 : (['g', 'p', 'j', '.'] : List Char) = ".jpg".toList.reverse := by decide
  simp only [extSplit, h0, h1, ht4, hd4]
  rw [if_neg hc1, if_pos hc2, List.reverse_reverse]

/-- The splitter recognises a lowercase jpeg suffix. -/
theorem extSplit_jpeg (z : List Char) : extSplit (z ++ ".jpeg".toList) = some z := by
  have h0 : (z ++ ".jpeg".toList).reverse =
      (['g', 'e', 'p', 'j', '.'] : List Char) ++ z.reverse := by
    rw [List.reverse_append]; rfl
  have h1 : stripNl ((['g', 'e', 'p', 'j', '.'] : List Char) ++ z.reverse) =
      (['g', 'e', 'p', 'j', '.'] : List Char) ++ z.reverse := by
    simp [stripNl]
  have ht4 : List.take 4 ((['g', 'e', 'p', 'j', '.'] : List Char) ++ z.reverse) =
      ['g', 'e', 'p', 'j'] := by
    rw [show (['g', 'e', 'p', 'j', '.'] : List Char) ++ z.reverse =
        (['g', 'e', 'p', 'j'] : List Char) ++ ('.' :: z.reverse) from rfl]
    exact List.take_left' (by decide)
  have ht5 : List.take 5 ((['g', 'e', 'p', 'j', '.'] : List Char) ++ z.reverse) =
      ['g', 'e', 'p', 'j', '.'] := List.take_left' (by decide)
  have hd5 : List.drop 5 ((['g', 'e', 'p', 'j', '.'] : List Char) ++ z.reverse) =
      z.reverse := List.drop_left' (by decide)
  have hc1 : ¬((['g', 'e', 'p', 'j'] : List Char) = ".png".toList.reverse) := by decide
  have hc2 : ¬((['g', 'e', 'p', 'j'] : List Char) = ".jpg".toList.reverse) := by decide
  have hc3 : (['g', 'e', 'p', 'j', '.'] : List Char) = ".jpeg".toList.reverse := by decide
  simp only [extSplit, h0, h1, ht4, ht5, hd5]
  rw [if_neg hc1, if_neg hc2, if_pos hc3, List.reverse_reverse]

/-! ### The exact value of the match on a well-formed filename -/

/-- The tail matcher on an explicitly well-formed tail returns exactly the
three embedded groups. -/
theorem tailMatch_build (x y rest3 z : List Char)
    (hxu : ∀ c ∈ x, c ≠ '_') (hyu : ∀ c ∈ y, c ≠ '_')
    (hes : extSplit rest3 = some z)
    (hx : numGroup x = true) (hy : numGroup y = true) (hz : numGroup z = true) :
    tailMatch ('_' :: (x ++ '_' :: (y ++ '_' :: rest3))) = some (x, y, z) := by
  simp [tailMatch, splitUnderscore_append x (y ++ '_' :: rest3) hxu,
    splitUnderscore_append y rest3 hyu, hes, hx, hy, hz]

/-- The greedy matcher on a filename of the well-formed shape
prefix_x_y_z.ext returns exactly the three embedded groups: the greedy
engine backtracks past the final one-group and two-group tail positions and
commits to the three-group position. -/
theorem reMatch_exact (name x y z e : List Char)
    (hname : ∀ c ∈ name, c ≠ '\n')
    (hx : numGroup x = true) (hy : numGroup y = true) (hz : numGroup z = true)
    (hne : ∀ c ∈ e, c ≠ '\n' ∧ c ≠ '_')
    (hes : extSplit (z ++ e) = some z) :
    reMatchGreedy (name ++ '_' :: (x ++ '_' :: (y ++ '_' :: (z ++ e)))) =
      some (x, y, z) := by
  have hxc := numGroup_chars x hx
  have hyc := numGroup_chars y hy
  have hzc := numGroup_chars z hz
  have hze : ∀ c ∈ z ++ e, c ≠ '\n' ∧ c ≠ '_' := by
    intro c hc
    rcases List.mem_append.mp hc with h1 | h2
    · exact ⟨(hzc c h1).2.1, (hzc c h1).1⟩
    · exact hne c h2
  have hzeu : ∀ c ∈ z ++ e, c ≠ '_' := fun c hc => (hze c hc).2
  have hrA : reMatchGreedy (z ++ e) = none := reMatch_none _ hze
  have htA : tailMatch ('_' :: (z ++ e)) = none := by
    simp [tailMatch, splitUnderscore_none (z ++ e) hzeu]
  have hrA2 : reMatchGreedy ('_' :: (z ++ e)) = none := by
    rw [reMatch_cons _ (by decide)]
    simp only [hrA]
    exact htA
  have hrB : reMatchGreedy (y ++ '_' :: (z ++ e)) = none := by
    rw [reMatch_skipAll y _ (fun c hc => ⟨(hyc c hc).2.1, (hyc c hc).1⟩), hrA2]
  have htB : tailMatch ('_' :: (y ++ '_' :: (z ++ e))) = none := by
    simp [tailMatch, splitUnderscore_append y (z ++ e) (fun c hc => (hyc c hc).1),
      splitUnderscore_none (z ++ e) hzeu]
  have hrB2 : reMatchGreedy ('_' :: (y ++ '_' :: (z ++ e))) = none := by
    rw [reMatch_cons _ (by decide)]
    simp only [hrB]
    exact htB
  have hrC : reMatchGreedy (x ++ '_' :: (y ++ '_' :: (z ++ e))) = none := by
    rw [reMatch_skipAll x _ (fun c hc => ⟨(hxc c hc).2.1, (hxc c hc).1⟩), hrB2]
  have htC : tailMatch ('_' :: (x ++ '_' :: (y ++ '_' :: (z ++ e)))) = some (x, y, z) :=
    tailMatch_build x y (z ++ e) z (fun c hc => (hxc c hc).1)
      (fun c hc => (hyc c hc).1) hes hx hy hz
  have hrC2 : reMatchGreedy ('_' :: (x ++ '_' :: (y ++ '_' :: (z ++ e)))) =
      some (x, y, z) := by
    rw [reMatch_cons _ (by decide)]
    simp only [hrC]
    exact htC
  exact reMatch_extend name _ hname hrC2

/-! ### A match needs three underscores -/

/-- A successful tail position contains at least three underscores. -/
theorem tailMatch_count {s : List Char} (h : (tailMatch s).isSome = true) :
    3 ≤ s.count '_' := by
  rw [Option.isSome_iff_exists] at h
  obtain ⟨g, hg⟩ := h
  obtain ⟨g1, g2, g3⟩ := g
  cases s with
  | nil => simp [tailMatch] at hg
  | cons c0 rest =>
    simp only [tailMatch] at hg
    by_cases hc : c0 = '_'
    · rw [if_pos hc] at hg
      cases h1 : splitUnderscore rest with
      | none => simp only [h1] at hg; exact absurd hg (by simp)
      | some pr1 =>
        obtain ⟨a1, b1⟩ := pr1
        simp only [h1] at hg
        cases h2 : splitUnderscore b1 with
        | none => simp only [h2] at hg; exact absurd hg (by simp)
        | some pr2 =>
          obtain ⟨a2, b2⟩ := pr2
          obtain ⟨e1, _⟩ := splitUnderscore_eq h1
          obtain ⟨e2, _⟩ := splitUnderscore_eq h2
          subst hc; subst e1; subst e2
          simp [List.count_append, List.count_cons]
          omega
    · rw [if_neg hc] at hg; simp at hg

/-- A filename with fewer than three underscores cannot match at all. -/
theorem reMatch_needs_underscores (s : List Char) (h : s.count '_' < 3) :
    reMatchGreedy s = none := by
  cases hm : reMatchGreedy s with
  | none => rfl
  | some g =>
    obtain ⟨p, t, hs, htm⟩ := reMatch_some_tail s hm
    have h3 : 3 ≤ t.count '_' := tailMatch_count (by simp [htm])
    rw [hs, List.count_append] at h
    omega

/-! ### A match needs an accepted extension -/

/-- A successful tail position contains a suffix accepted by the extension
splitter. -/
theorem tailMatch_extSplit :
    ∀ {s g}, tailMatch s = some g →
      ∃ w, w <:+ s ∧ (extSplit w).isSome = true := by
  intro s g h
  cases s with
  | nil => simp [tailMatch] at h
  | cons c0 rest =>
    simp only [tailMatch] at h
    by_cases hc : c0 = '_'
    · rw [if_pos hc] at h
      cases h1 : splitUnderscore rest with
      | none => simp only [h1] at h; exact absurd h (by simp)
      | some pr1 =>
        obtain ⟨a1, b1⟩ := pr1
        simp only [h1] at h
        cases h2 : splitUnderscore b1 with
        | none => simp only [h2] at h; exact absurd h (by simp)
        | some pr2 =>
          obtain ⟨a2, b2⟩ := pr2
          simp only [h2] at h
          cases h3 : extSplit b2 with
          | none => simp only [h3] at h; exact absurd h (by simp)
          | some a3 =>
            obtain ⟨e1, _⟩ := splitUnderscore_eq h1
            obtain ⟨e2, _⟩ := splitUnderscore_eq h2
            subst hc; subst e1; subst e2
            refine ⟨b2, ⟨'_' :: (a1 ++ '_' :: (a2 ++ ['_'])), by simp⟩, by simp [h3]⟩
    · rw [if_neg hc] at h; simp at h

/-- Any match of the whole pattern contains a suffix accepted by the
extension splitter. -/
theorem reMatch_ext_suffix {s g} (h : reMatchGreedy s = some g) :
    ∃ w, w <:+ s ∧ (extSplit w).isSome = true := by
  obtain ⟨p, t, hs, htm⟩ := reMatch_some_tail s h
  obtain ⟨w, hw, he⟩ := tailMatch_extSplit htm
  exact ⟨w, hs ▸ hw.trans (List.suffix_append p t), he⟩

/-- No suffix of a filename ending in .bmp is accepted by the extension
splitter. -/
theorem extSplit_bmp_suffix (u w : List Char)
    (hw : w <:+ (u ++ (".bmp").toList)) : extSplit w = none := by
  have hrev : w.reverse <+: (u ++ (".bmp").toList).reverse :=
    List.reverse_prefix.mpr hw
  rw [List.reverse_append,
    show ((".bmp").toList.reverse : List Char) = 'p' :: ['m', 'b', '.'] from rfl]
    at hrev
  cases hwr : w.reverse with
  | nil =>
    have hnil : w = [] := by
      have := congrArg List.reverse hwr
      simpa using this
    subst hnil
    decide
  | cons c r =>
    have hc : c = 'p' := by
      rw [hwr] at hrev
      obtain ⟨t2, ht2⟩ := hrev
      have := congrArg List.head? ht2
      simpa using this
    subst hc
    have hstrip : stripNl ('p' :: r) = 'p' :: r := by simp [stripNl]
    have ht4 : List.take 4 ('p' :: r) = 'p' :: List.take 3 r := by
      rw [show (4 : Nat) = 3 + 1 from rfl, List.take_succ_cons]
    have ht5 : List.take 5 ('p' :: r) = 'p' :: List.take 4 r := by
      rw [show (5 : Nat) = 4 + 1 from rfl, List.take_succ_cons]
    have e1 : ((".png").toList.reverse : List Char) = ['g', 'n', 'p', '.'] := rfl
    have e2 : ((".jpg").toList.reverse : List Char) = ['g', 'p', 'j', '.'] := rfl
    have e3 : ((".jpeg").toList.reverse : List Char) = ['g', 'e', 'p', 'j', '.'] := rfl
    simp only [extSplit, hwr, hstrip, ht4, ht5, e1, e2, e3]
    rw [if_neg (by simp), if_neg (by simp), if_neg (by simp)]

/-- A filename ending in .bmp never matches the pattern, whatever comes
before the extension. -/
theorem reMatch_no_bmp (u : List Char) :
    reMatchGreedy (u ++ (".bmp").toList) = none := by
  cases hm : reMatchGreedy (u ++ (".bmp").toList) with
  | none => rfl
  | some g =>
    obtain ⟨w, hw, he⟩ := reMatch_ext_suffix hm
    rw [extSplit_bmp_suffix u w hw] at he
    simp at he

/-- When no element maps to a value, filterMap is empty. -/
theorem filterMap_none {α β : Type} (f : α → Option β) :
    ∀ (l : List α), (∀ x ∈ l, f x = none) → l.filterMap f = [] := by
  intro l h
  rw [List.filterMap_eq_nil_iff]
  exact h

/-! ### Claim theorems -/

/-- C1: for every list of image paths in which every base filename matches
the camera-position pattern, the extractor returns normally with a list of
triples of the same length as the input, whose i-th entry is parsed from the
i-th input path, and reports the count matched. (The claim also holds for
the empty list; non-emptiness is not needed.) -/
theorem C1_full_coverage (images : List (List Char))
    (h : ∀ p ∈ images, (reMatchGreedy (basename p)).isSome = true) :
    ∃ ts : List Pos3,
      extract_structured_camera_positions images =
        Except.ok (some ts, [Msg.extracted images.length]) ∧
      ts.length = images.length ∧
      ∀ (i : Nat) (hi : i < images.length) (ht : i < ts.length),
        parseTriple images[i] = some ts[i] := by
  have hall : ∀ p ∈ images, (parseTriple p).isSome = true :=
    fun p hp => parseTriple_isSome p (h p hp)
  obtain ⟨hlen, hidx⟩ := filterMap_all_isSome parseTriple images hall
  refine ⟨images.filterMap parseTriple, ?_, hlen, hidx⟩
  rw [extract_eq images, if_pos hlen, hlen]

/-- Witness for C1 at a concrete fully-matching two-element input. -/
theorem C1_full_coverage_witness :
    (∀ p ∈ [("a_1_2_3.png").toList, ("b_-1.5_0_0.5.jpg").toList],
      (reMatchGreedy (basename p)).isSome = true) ∧
    ∃ ts : List Pos3,
      extract_structured_camera_positions
          [("a_1_2_3.png").toList, ("b_-1.5_0_0.5.jpg").toList] =
        Except.ok (some ts, [Msg.extracted 2]) ∧
      ts.length = 2 ∧
      ∀ (i : Nat)
        (hi : i < ([("a_1_2_3.png").toList, ("b_-1.5_0_0.5.jpg").toList] :
          List (List Char)).length)
        (ht : i < ts.length),
        parseTriple ([("a_1_2_3.png").toList, ("b_-1.5_0_0.5.jpg").toList] :
          List (List Char))[i] = some ts[i] :=
  ⟨by decide, C1_full_coverage _ (by decide)⟩

/-- C2: when the number of matching filenames is positive but below the
input length, the extractor prints the partial-coverage warning and the
defaults notice and returns the absence signal, never a shorter list. -/
theorem C2_incomplete_coverage (images : List (List Char))
    (h1 : 0 < matchedCount images) (h2 : matchedCount images < images.length) :
    extract_structured_camera_positions images =
      Except.ok (none, [Msg.coverageWarning (matchedCount images) images.length,
        Msg.usingDefaults]) := by
  have hfm := filterMap_length_eq_matchedCount images
  rw [extract_eq images, hfm, if_neg (Nat.ne_of_lt h2), if_pos h1]

/-- Witness for C2 at a concrete one-of-two-matching input. -/
theorem C2_incomplete_coverage_witness :
    (0 < matchedCount [("img_1_2_3.png").toList, ("random.jpg").toList] ∧
      matchedCount [("img_1_2_3.png").toList, ("random.jpg").toList] < 2) ∧
    extract_structured_camera_positions
        [("img_1_2_3.png").toList, ("random.jpg").toList] =
      Except.ok (none, [Msg.coverageWarning 1 2, Msg.usingDefaults]) :=
  ⟨⟨by decide, by decide⟩, C2_incomplete_coverage _ (by decide) (by decide)⟩

/-- C4: the extractor returns normally on every input list, and every string
captured by a numeric group of the pattern converts with float() without an
exception. -/
theorem C4_never_raises :
    (∀ images : List (List Char),
      ∃ out, extract_structured_camera_positions images = Except.ok out) ∧
    (∀ s g1 g2 g3 : List Char, reMatchGreedy s = some (g1, g2, g3) →
      (pyFloat g1).isSome = true ∧ (pyFloat g2).isSome = true ∧
        (pyFloat g3).isSome = true) := by
  refine ⟨extract_ok, ?_⟩
  intro s g1 g2 g3 h
  obtain ⟨h1, h2, h3⟩ := reMatch_groups h
  exact ⟨numGroup_pyFloat g1 h1, numGroup_pyFloat g2 h2, numGroup_pyFloat g3 h3⟩

/-- Witness for C4: a malformed path does not raise, and the groups captured
from a matching filename all convert. -/
theorem C4_never_raises_witness :
    (∃ out, extract_structured_camera_positions
      [("totally..malformed__.x").toList] = Except.ok out) ∧
    reMatchGreedy ("a_1_2_3.png").toList =
      some (("1").toList, ("2").toList, ("3").toList) ∧
    (pyFloat ("1").toList).isSome = true ∧ (pyFloat ("2").toList).isSome = true ∧
      (pyFloat ("3").toList).isSome = true :=
  ⟨C4_never_raises.1 [("totally..malformed__.x").toList], by decide,
    C4_never_raises.2 (("a_1_2_3.png").toList) _ _ _ (by decide)⟩

/-- C5: a filename with fewer than three underscore-delimited groups cannot
match (the pattern needs three literal underscores), a three-group filename
with an unsupported extension such as .bmp does not match, and an input list
of only such filenames yields the absence signal. -/
theorem C5_pattern_requirements :
    (∀ s : List Char, s.count '_' < 3 → reMatchGreedy s = none) ∧
    (∀ u : List Char, reMatchGreedy (u ++ (".bmp").toList) = none) ∧
    reMatchGreedy ("img_1_2.png").toList = none ∧
    reMatchGreedy ("a_1_2_3.bmp").toList = none ∧
    extract_structured_camera_positions
      [("img_1_2.png").toList, ("a_1_2_3.bmp").toList] = Except.ok (none, []) := by
  refine ⟨reMatch_needs_underscores, reMatch_no_bmp, by decide, by decide, by decide⟩

/-- Witness for C5: the underscore-count bound applied at a concrete
two-group filename. -/
theorem C5_pattern_requirements_witness :
    (("img_1_2.png").toList.count '_' < 3) ∧
    reMatchGreedy ("img_1_2.png").toList = none ∧
    reMatchGreedy (("a_1_2_3").toList ++ (".bmp").toList) = none :=
  ⟨by decide, C5_pattern_requirements.1 (("img_1_2.png").toList) (by decide),
    C5_pattern_requirements.2.1 (("a_1_2_3").toList)⟩

/-- C6: when no filename matches, the extractor returns the absence signal
and prints nothing. -/
theorem C6_silent_absence (images : List (List Char)) (hne : images ≠ [])
    (h : ∀ p ∈ images, reMatchGreedy (basename p) = none) :
    extract_structured_camera_positions images = Except.ok (none, []) := by
  have hfm : images.filterMap parseTriple = [] :=
    filterMap_none parseTriple images (fun p hp => parseTriple_none p (h p hp))
  rw [extract_eq images, hfm,
    if_neg (fun h0 => hne (List.eq_nil_of_length_eq_zero (by simpa using h0.symm))),
    if_neg (by simp)]

/-- Witness for C6 at a concrete nothing-matches input. -/
theorem C6_silent_absence_witness :
    (([("photo1.png").toList, ("photo2.jpg").toList] : List (List Char)) ≠ [] ∧
      (∀ p ∈ [("photo1.png").toList, ("photo2.jpg").toList],
        reMatchGreedy (basename p) = none)) ∧
    extract_structured_camera_positions
      [("photo1.png").toList, ("photo2.jpg").toList] = Except.ok (none, []) :=
  ⟨⟨by decide, by decide⟩, C6_silent_absence _ (by decide) (by decide)⟩

/-- C9: on the empty input list, outside the length requirement of the spec,
the extractor takes the full-coverage branch: it returns the empty list,
distinct from the absence signal, and prints the count-matched message for
zero filenames. -/
theorem C9_empty_input :
    extract_structured_camera_positions [] =
      Except.ok (some [], [Msg.extracted 0]) := rfl

/-- C3 counterexample: the pattern is compiled without a case-insensitive
flag, so the uppercase and mixed-case extensions the claim asserts to match
do not match, and such a filename contributes no triple. -/
theorem C3_counterexample :
    reMatchGreedy ("img_1_2_3.PNG").toList = none ∧
    reMatchGreedy ("img_1_2_3.Jpg").toList = none ∧
    extract_structured_camera_positions [("img_1_2_3.PNG").toList] =
      Except.ok (none, []) := ⟨by decide, by decide, by decide⟩

/-- C3 (amended): extension matching is case-sensitive: a base filename
ending in three underscore-separated signed decimal numbers followed by a
dot and one of the lowercase extensions png, jpg, jpeg matches the pattern
and yields exactly the camera-position groups embedded in the name;
uppercase or mixed-case variants of the extensions do not match. -/
theorem C3_case_sensitive (p x y z e : List Char)
    (hp : ∀ c ∈ p, c ≠ '\n')
    (hx : numGroup x = true) (hy : numGroup y = true) (hz : numGroup z = true)
    (he : e = (".png").toList ∨ e = (".jpg").toList ∨ e = (".jpeg").toList) :
    reMatchGreedy (p ++ '_' :: (x ++ '_' :: (y ++ '_' :: (z ++ e)))) =
      some (x, y, z) := by
  have hes : extSplit (z ++ e) = some z := by
    rcases he with h | h | h <;> subst h
    · exact extSplit_png z
    · exact extSplit_jpg z
    · exact extSplit_jpeg z
  have hne : ∀ c ∈ e, c ≠ '\n' ∧ c ≠ '_' := by
    rcases he with h | h | h <;> subst h <;> decide
  exact reMatch_exact p x y z e hp hx hy hz hne hes

/-- Witness for the amended C3 at a concrete lowercase jpeg filename. -/
theorem C3_case_sensitive_witness :
    ((∀ c ∈ ("img").toList, c ≠ '\n') ∧ numGroup ("1").toList = true ∧
      numGroup ("2").toList = true ∧ numGroup ("3").toList = true) ∧
    reMatchGreedy (("img").toList ++ '_' :: (("1").toList ++ '_' ::
        (("2").toList ++ '_' :: (("3").toList ++ (".jpeg").toList)))) =
      some (("1").toList, ("2").toList, ("3").toList) :=
  ⟨⟨by decide, by decide, by decide, by decide⟩,
    C3_case_sensitive _ _ _ _ _ (by decide) (by decide) (by decide) (by decide)
      (Or.inr (Or.inr rfl))⟩

/-- C7: parsing round-trip. For any prefix and any three numeric renderings
accepted by the pattern groups, the extractor on the single filename
prefix_x_y_z.png returns exactly the triple of parsed values, which are the
exact rational values of the three decimal strings. -/
theorem C7_roundtrip (name x y z : List Char) (qx qy qz : ℚ)
    (hname : ∀ c ∈ name, c ≠ '\n' ∧ c ≠ '/')
    (hx : numGroup x = true) (hy : numGroup y = true) (hz : numGroup z = true)
    (hqx : pyFloat x = some qx) (hqy : pyFloat y = some qy)
    (hqz : pyFloat z = some qz) :
    extract_structured_camera_positions
        [name ++ '_' :: (x ++ '_' :: (y ++ '_' :: (z ++ (".png").toList)))] =
      Except.ok (some [(qx, qy, qz)], [Msg.extracted 1]) := by
  have hbase : basename
      (name ++ '_' :: (x ++ '_' :: (y ++ '_' :: (z ++ (".png").toList)))) =
      name ++ '_' :: (x ++ '_' :: (y ++ '_' :: (z ++ (".png").toList))) := by
    apply basename_eq_self
    intro c hc
    rcases List.mem_append.mp hc with h1 | h1
    · exact (hname c h1).2
    rcases List.mem_cons.mp h1 with h2 | h2
    · subst h2; decide
    rcases List.mem_append.mp h2 with h3 | h3
    · exact ((numGroup_chars x hx) c h3).2.2
    rcases List.mem_cons.mp h3 with h4 | h4
    · subst h4; decide
    rcases List.mem_append.mp h4 with h5 | h5
    · exact ((numGroup_chars y hy) c h5).2.2
    rcases List.mem_cons.mp h5 with h6 | h6
    · subst h6; decide
    rcases List.mem_append.mp h6 with h7 | h7
    · exact ((numGroup_chars z hz) c h7).2.2
    · exact (by decide : ∀ d ∈ (".png").toList, d ≠ '/') c h7
  have hm : reMatchGreedy
      (name ++ '_' :: (x ++ '_' :: (y ++ '_' :: (z ++ (".png").toList)))) =
      some (x, y, z) :=
    reMatch_exact name x y z ((".png").toList) (fun c hc => (hname c hc).1)
      hx hy hz (by decide) (extSplit_png z)
  have hpt : parseTriple
      (name ++ '_' :: (x ++ '_' :: (y ++ '_' :: (z ++ (".png").toList)))) =
      some (qx, qy, qz) := by
    rw [parseTriple, hbase, hm]
    simp [convTriple, hqx, hqy, hqz]
  have hfm : List.filterMap parseTriple
      [name ++ '_' :: (x ++ '_' :: (y ++ '_' :: (z ++ (".png").toList)))] =
      [(qx, qy, qz)] := by
    simp only [List.filterMap_cons, List.filterMap_nil, hpt]
  rw [extract_eq, hfm, if_pos (by simp)]
  rfl

/-- Witness for C7 at a concrete filename cam_12_-3_4.png. -/
theorem C7_roundtrip_witness :
    (numGroup ("12").toList = true ∧ numGroup ("-3").toList = true ∧
      numGroup ("4").toList = true ∧ pyFloat ("12").toList = some 12 ∧
      pyFloat ("-3").toList = some (-3) ∧ pyFloat ("4").toList = some 4) ∧
    extract_structured_camera_positions
        [("cam").toList ++ '_' :: (("12").toList ++ '_' :: (("-3").toList ++ '_' ::
          (("4").toList ++ (".png").toList)))] =
      Except.ok (some [((12 : ℚ), (-3 : ℚ), (4 : ℚ))], [Msg.extracted 1]) :=
  ⟨⟨by decide, by decide, by decide, by decide, by decide, by decide⟩,
    C7_roundtrip _ _ _ _ _ _ _ (by decide) (by decide) (by decide) (by decide)
      (by decide) (by decide) (by decide)⟩

/-- C8: the extractor enforces no minimum input count: the per-file pattern
logic applies to a one-element list in both directions, while the
caller-level script raises the fatal too-few-images error exactly when the
directory scan found fewer than two image files. -/
theorem C8_no_minimum :
    (∀ p : List Char, (reMatchGreedy (basename p)).isSome = true →
      ∃ t, extract_structured_camera_positions [p] =
        Except.ok (some [t], [Msg.extracted 1])) ∧
    (∀ p : List Char, reMatchGreedy (basename p) = none →
      extract_structured_camera_positions [p] = Except.ok (none, [])) ∧
    (∀ paths : List (List Char), paths.length < 2 →
      validateImageCount paths =
        Except.error (ScanError.tooFewImages paths.length)) ∧
    (∀ paths : List (List Char), 2 ≤ paths.length →
      validateImageCount paths = Except.ok ()) := by
  refine ⟨?_, ?_, ?_, ?_⟩
  · intro p hp
    have hps := parseTriple_isSome p hp
    rw [Option.isSome_iff_exists] at hps
    obtain ⟨t, ht⟩ := hps
    have hfm : [p].filterMap parseTriple = [t] := by
      simp [List.filterMap_cons, ht]
    refine ⟨t, ?_⟩
    rw [extract_eq, hfm, if_pos (by simp)]
    rfl
  · intro p hp
    have hfm : [p].filterMap parseTriple = [] := by
      simp [List.filterMap_cons, parseTriple_none p hp]
    rw [extract_eq, hfm, if_neg (by simp), if_neg (by simp)]
  · intro paths h
    rw [validateImageCount, if_pos h]
  · intro paths h
    rw [validateImageCount, if_neg (by omega)]

/-- Witness for C8: one matching singleton, one non-matching singleton, a
one-element scan rejected, a two-element scan accepted. -/
theorem C8_no_minimum_witness :
    ((reMatchGreedy (basename ("a_1_2_3.png").toList)).isSome = true ∧
      reMatchGreedy (basename ("photo.png").toList) = none ∧
      ([("x.png").toList] : List (List Char)).length < 2 ∧
      2 ≤ ([("x.png").toList, ("y.png").toList] : List (List Char)).length) ∧
    (∃ t, extract_structured_camera_positions [("a_1_2_3.png").toList] =
      Except.ok (some [t], [Msg.extracted 1])) ∧
    extract_structured_camera_positions [("photo.png").toList] =
      Except.ok (none, []) ∧
    validateImageCount [("x.png").toList] =
      Except.error (ScanError.tooFewImages 1) ∧
    validateImageCount [("x.png").toList, ("y.png").toList] = Except.ok () :=
  ⟨⟨by decide, by decide, by decide, by decide⟩,
    C8_no_minimum.1 _ (by decide), C8_no_minimum.2.1 _ (by decide),
    C8_no_minimum.2.2.1 _ (by decide), C8_no_minimum.2.2.2 _ (by decide)⟩

/-- C10: the remeshing vertex count is -1 for keep, the target for vertex,
and the floor of half the target for faces (bracketed below by the floor
inequalities); check_positive rejects exactly the non-positive integers. -/
theorem C10_vertex_count (t : Int) :
    vertex_count "keep" t = -1 ∧
    vertex_count "vertex" t = t ∧
    vertex_count "faces" t = Int.fdiv t 2 ∧
    (0 < t →
      2 * vertex_count "faces" t ≤ t ∧ t < 2 * vertex_count "faces" t + 2) ∧
    (t ≤ 0 → check_positive t = Except.error ()) ∧
    (0 < t → check_positive t = Except.ok t) := by
  have hkeep : vertex_count "keep" t = -1 := by
    rw [vertex_count, if_pos rfl]
  have hvert : vertex_count "vertex" t = t := by
    rw [vertex_count, if_neg (by decide), if_pos rfl]
  have hfaces : vertex_count "faces" t = Int.fdiv t 2 := by
    rw [vertex_count, if_neg (by decide), if_neg (by decide)]
  refine ⟨hkeep, hvert, hfaces, ?_, ?_, ?_⟩
  · intro ht
    rw [hfaces, Int.fdiv_eq_ediv t (by decide)]
    have h1 := Int.ediv_add_emod t 2
    have h2 := Int.emod_nonneg t (show (2 : ℤ) ≠ 0 by decide)
    have h3 := Int.emod_lt_of_pos t (show (0 : ℤ) < 2 by decide)
    omega
  · intro ht
    rw [check_positive, if_pos ht]
  · intro ht
    rw [check_positive, if_neg (by omega)]

/-- Witness for C10 at target counts 5 and -3. -/
theorem C10_vertex_count_witness :
    ((0 : Int) < 5 ∧ (-3 : Int) ≤ 0) ∧
    vertex_count "keep" 5 = -1 ∧ vertex_count "vertex" 5 = 5 ∧
    vertex_count "faces" 5 = 2 ∧
    check_positive 5 = Except.ok 5 ∧ check_positive (-3) = Except.error () :=
  ⟨⟨by decide, by decide⟩, (C10_vertex_count 5).1, (C10_vertex_count 5).2.1,
    by rw [(C10_vertex_count 5).2.2.1]; decide,
    (C10_vertex_count 5).2.2.2.2.2 (by decide),
    (C10_vertex_count (-3)).2.2.2.2.1 (by decide)⟩

end RunMultiview
